import Mathlib

/-!
Verification of the `cx` PTY session recorder (`src/lib/codex-tee.py`,
`src/lib/codex-tee-v2.py`) and the daily rollup analyzer
(`src/lib/codex-daily-rollup.py`) against their natural-language
specification.

Shallow embedding conventions:
* Python byte strings are modelled as Lean `String`s; `len(data)` becomes
  `String.length` (one symbol per byte) and `data.decode(errors="replace")`
  becomes the identity, since decoding never raises and the claims never
  inspect individual byte values.
* Python dicts (insertion-ordered, as serialized by `json.dumps`) are
  modelled as ordered association lists `List (String × JsonVal)`;
  assignment to an existing key keeps its position, as in CPython 3.7+.
* The JSONL file is modelled as the list of record objects written, in
  order; the exact bytes of line `i` are `serializeLine` of that object
  (the `json.dumps` output plus the trailing newline), mirroring
  `append_jsonl`.
-/

namespace Cx

/-- JSON values occurring in the recorder's transcript records: strings,
integers, booleans and arrays of strings (the `cmd` field). -/
inductive JsonVal where
  | str (s : String)
  | int (n : Int)
  | bool (b : Bool)
  | arr (xs : List String)
deriving DecidableEq

/-- An insertion-ordered JSON object, modelling a Python dict as serialized
by `json.dumps`. -/
abbrev Record := List (String × JsonVal)

/-- Lowercase hexadecimal digit, as used by `json.dumps` for `\u00XX`
escapes of control characters. -/
def hexDigit (n : Nat) : Char :=
  if n < 10 then Char.ofNat (48 + n) else Char.ofNat (87 + n)

/-- Escaping of a single character exactly as `json.dumps(...,
ensure_ascii=False)` does: quote, backslash and the short control escapes,
`\u00XX` for the remaining control characters, everything else verbatim. -/
def escChar (c : Char) : String :=
  if c = '"' then "\\\""
  else if c = '\\' then "\\\\"
  else if c = '\n' then "\\n"
  else if c = '\t' then "\\t"
  else if c = '\r' then "\\r"
  else if c = '\x08' then "\\b"
  else if c = '\x0c' then "\\f"
  else if c.toNat < 32 then
    "\\u00" ++ String.singleton (hexDigit (c.toNat / 16)) ++
      String.singleton (hexDigit (c.toNat % 16))
  else String.singleton c

/-- Serialization of a JSON string literal, as `json.dumps` renders it. -/
def dumpStr (s : String) : String :=
  "\"" ++ String.join (s.data.map escChar) ++ "\""

/-- Serialization of a JSON value, as `json.dumps` renders it (default
separators, so array items are joined with a comma and a space). -/
def dumpVal : JsonVal → String
  | .str s => dumpStr s
  | .int n => toString n
  | .bool b => if b then "true" else "false"
  | .arr xs => "[" ++ String.intercalate ", " (xs.map dumpStr) ++ "]"

/-- Serialization of an object, as `json.dumps(obj, ensure_ascii=False)`
renders a dict with the default separators `", "` and `": "`. -/
def dumps (r : Record) : String :=
  "\x7b" ++
    String.intercalate ", " (r.map fun p => dumpStr p.1 ++ ": " ++ dumpVal p.2) ++
    "\x7d"

/-- Whether the object has the given key (`key in obj` on a dict). -/
def Record.hasKey : Record → String → Bool
  | [], _ => false
  | p :: r, k => p.1 == k || Record.hasKey r k

/-- First value stored under the given key (`obj.get(key)` on a dict; the
objects built by the recorder never have duplicate keys). -/
def Record.getVal : Record → String → Option JsonVal
  | [], _ => none
  | p :: r, k => if p.1 = k then some p.2 else Record.getVal r k

/-- String stored under the given key, if any. -/
def Record.getStr (r : Record) (k : String) : Option String :=
  match r.getVal k with
  | some (.str s) => some s
  | _ => none

/-- Integer stored under the given key, if any. -/
def Record.getInt (r : Record) (k : String) : Option Int :=
  match r.getVal k with
  | some (.int n) => some n
  | _ => none

/-- Dict assignment `obj[k] = v`: replaces the value in place if the key is
present (CPython keeps the key's insertion position), else appends. -/
def Record.set (r : Record) (k : String) (v : JsonVal) : Record :=
  if r.hasKey k then r.map fun p => if p.1 = k then (k, v) else p
  else r ++ [(k, v)]

/-- Removal of a key from an object (the spec's "with its `prev_hash` field
removed" operation used by the claimed chain-verification procedure). -/
def Record.dropKey (r : Record) (k : String) : Record :=
  r.filter fun p => p.1 != k

/-- Model of `hashlib.sha256(data).hexdigest()` (`compute_sha256` in both
recorder variants). The digest is abstracted as an injective fingerprint of
exactly the input bytes: the only properties of SHA-256 the development
relies on are that the digest is a function of precisely the hashed bytes
and that distinct inputs yield distinct digests (collision resistance).
The result is never the empty string, matching the fact that a hex digest
is always 64 characters, so Python truthiness of a digest is `isSome`. -/
def compute_sha256 (data : String) : String :=
  "sha256:" ++ data

/-- The `if prev_hash: obj["prev_hash"] = prev_hash` step of
`append_jsonl`: a digest is never falsy, so truthiness coincides with the
option being `some`. -/
def withPrevHash (obj : Record) (prevHash : Option String) : Record :=
  match prevHash with
  | some h => obj.set "prev_hash" (.str h)
  | none => obj

/-- Exact bytes `append_jsonl` writes for a record: the `json.dumps`
serialization plus the trailing newline (UTF-8 encoding is modelled as the
identity on the string). -/
def serializeLine (r : Record) : String :=
  dumps r ++ "\n"

/-- Model of `append_jsonl(path, obj, prev_hash)` from both recorder
variants (the two definitions are textually identical): adds the
`prev_hash` field when a previous hash is threaded in, appends the
serialized line to the file (modelled as the list of records written), and
returns the digest of the bytes just written, to be threaded into the next
call. -/
def append_jsonl (log : List Record) (obj : Record) (prevHash : Option String) :
    List Record × String :=
  let obj' := withPrevHash obj prevHash
  (log ++ [obj'], compute_sha256 (serializeLine obj'))

/-- The hash-chain writer pattern used by the recorder: starting from an
empty file and `prev_hash = None`, thread each returned digest into the
next `append_jsonl` call. -/
def writeChain (rs : List Record) : List Record × Option String :=
  rs.foldl (fun acc r =>
    let step := append_jsonl acc.1 r acc.2
    (step.1, some step.2)) ([], none)

/-- The relation that actually links consecutive records in the log: the
later record's `prev_hash` field is the digest of the earlier record's full
serialized line as written, `prev_hash` field included. -/
def actualLink (r r' : Record) : Prop :=
  r'.getStr "prev_hash" = some (compute_sha256 (serializeLine r))

instance (r r' : Record) : Decidable (actualLink r r') := by
  unfold actualLink; infer_instance

/-- The chain-verification step as the claim states it: hash the
serialization of the earlier record with its `prev_hash` field removed and
compare against the later record's `prev_hash` field. -/
def claimedLink (r r' : Record) : Bool :=
  r'.getStr "prev_hash" == some (compute_sha256 (serializeLine (r.dropKey "prev_hash")))

/-- A pairwise-adjacent check over a log, as a boolean. -/
def adjacentAll (f : Record → Record → Bool) : List Record → Bool
  | [] => true
  | [_] => true
  | r :: r' :: rest => f r r' && adjacentAll f (r' :: rest)

/-! ## The recorder session model

State machine embedding of `main()` of `codex-tee.py` (v1) and
`codex-tee-v2.py` (v2). Each `Ev` models the outcome of servicing one
descriptor that `select` reported ready in one loop iteration, or an
asynchronous occurrence (signal, unexpected exception) during the
iteration. Wall-clock timestamps (`now_iso`) are abstracted as a tag of a
per-append step counter; no claim inspects their value. -/

/-- Static data of one recorder invocation. -/
structure Params where
  sessionId : String
  cmd : List String
  cwd : String
  codexUuid : Option String
deriving DecidableEq

/-- Abstraction of `now_iso()`: the k-th timestamp taken by the process. -/
def tsTag (k : Nat) : String :=
  "t" ++ toString k

/-- The `session_started` record of v1 (codex-tee.py lines 130-136). -/
def startedRecV1 (p : Params) (ts : String) : Record :=
  [("ts", .str ts), ("session_id", .str p.sessionId),
   ("event", .str "session_started"), ("cmd", .arr p.cmd), ("cwd", .str p.cwd)]

/-- The `session_started` record of v2 (codex-tee-v2.py lines 291-300):
the same five fields, plus the resume-correlation fields when a Codex UUID
was detected in the arguments. -/
def startedRecV2 (p : Params) (ts : String) : Record :=
  match p.codexUuid with
  | some u =>
      ((startedRecV1 p ts).set "codex_session_uuid" (.str u)).set "is_resume" (.bool true)
  | none => startedRecV1 p ts

/-- An `io` record with direction `in` (v1 lines 219-226, v2 lines
384-391; the two variants build the identical object). -/
def ioInRec (p : Params) (ts : String) (n : Nat) (text : String) (totalIn : Nat) : Record :=
  [("ts", .str ts), ("session_id", .str p.sessionId), ("direction", .str "in"),
   ("bytes", .int n), ("text", .str text), ("total_bytes_in", .int totalIn)]

/-- An `io` record with direction `out` (v1 lines 186-193, v2 lines
409-416). -/
def ioOutRec (p : Params) (ts : String) (n : Nat) (text : String) (totalOut : Nat) : Record :=
  [("ts", .str ts), ("session_id", .str p.sessionId), ("direction", .str "out"),
   ("bytes", .int n), ("text", .str text), ("total_bytes_out", .int totalOut)]

/-- The `error` record appended by v1's `except Exception` clause (lines
232-240) before the exception is re-raised. -/
def errorRec (p : Params) (ts msg ty : String) : Record :=
  [("ts", .str ts), ("session_id", .str p.sessionId), ("event", .str "error"),
   ("error", .str msg), ("error_type", .str ty)]

/-- The `session_ended` record of v1 (lines 258-267). -/
def endedRecV1 (p : Params) (ts : String) (ec : Int) (bin bout : Nat) : Record :=
  [("ts", .str ts), ("session_id", .str p.sessionId), ("event", .str "session_ended"),
   ("exit_code", .int ec), ("total_bytes_in", .int bin), ("total_bytes_out", .int bout),
   ("duration_estimate", .str "calculated_by_consumer")]

/-- The `session_ended` record of v2 (lines 455-467): v1's fields plus the
Codex UUID when resuming. -/
def endedRecV2 (p : Params) (ts : String) (ec : Int) (bin bout : Nat) : Record :=
  match p.codexUuid with
  | some u => (endedRecV1 p ts ec bin bout).set "codex_session_uuid" (.str u)
  | none => endedRecV1 p ts ec bin bout

/-- Outcome of the `os.write(master_fd, data)` call forwarding an input
chunk to the child. -/
inductive WriteRes where
  | ok
  | eio
  | othr (msg ty : String)
deriving DecidableEq

/-- One serviced readiness event (or asynchronous occurrence) of the relay
loop. `stdinData s w` is a successful nonempty read of `s` from stdin whose
forwarding write had outcome `w`; `ptyEio b` and `ptyEAGAIN b` are read
errors on the pty master with `b` recording whether the child is an exited,
not-yet-reaped zombie at that moment — the outcome of v2's
`waitpid(pid, WNOHANG)` probe, which reaps the child when `b` is true
(v1 has no probe and ignores `b`); `sigInt` is delivery of SIGINT while
the loop body (typically the `select` wait) is executing. -/
inductive Ev where
  | stdinData (s : String) (w : WriteRes)
  | stdinEOF
  | stdinReadErr
  | stdinEAGAIN
  | ptyData (s : String)
  | ptyEOF
  | ptyEio (childExited : Bool)
  | ptyEAGAIN (childExited : Bool)
  | ptyErrOther (msg ty : String)
  | sigInt
  | otherExn (msg ty : String)
deriving DecidableEq

/-- How control left the relay loop, determining the interpreter's own
exit status after finalization. -/
inductive ExitKind where
  | normal
  | raised
  | sysExit
deriving DecidableEq

/-- Observable state of one recorder process: the cumulative byte counters,
the raw transcript, the structured log with the threaded chain hash, the
bytes forwarded to the child's pty master (`childInput`) and to the real
stdout (`fwdOut`), and loop-control bookkeeping. `childReaped` records
that v2's `waitpid(pid, WNOHANG)` probe has already reaped the exited
child, which makes the `finally`'s blocking `waitpid(pid, 0)` raise. -/
structure TState where
  done : Bool
  bytesIn : Nat
  bytesOut : Nat
  raw : String
  log : List Record
  prevHash : Option String
  childInput : List String
  fwdOut : List String
  masterClosed : Bool
  childReaped : Bool
  exitKind : ExitKind
  steps : Nat
deriving DecidableEq

/-- One `append_jsonl` call site: append the record, thread the returned
digest, advance the timestamp counter. -/
def pushRecord (st : TState) (r : Record) : TState :=
  let step := append_jsonl st.log r st.prevHash
  { st with log := step.1, prevHash := some step.2, steps := st.steps + 1 }

/-- State after session setup: the `session_started` record has been
appended with `prev_hash = None` threaded in. -/
def initLoop (first : Record) : TState :=
  pushRecord
    { done := false, bytesIn := 0, bytesOut := 0, raw := "", log := [],
      prevHash := none, childInput := [], fwdOut := [], masterClosed := false,
      childReaped := false,
      exitKind := .normal, steps := 0 } first

/-- Setup state of v1 (line 130). -/
def initV1 (p : Params) : TState :=
  initLoop (startedRecV1 p (tsTag 0))

/-- Setup state of v2 (line 303). -/
def initV2 (p : Params) : TState :=
  initLoop (startedRecV2 p (tsTag 0))

/-- The exceptions relevant to the loops' exception dispatch. -/
inductive PyExn where
  | keyboardInterrupt
  | systemExit
deriving DecidableEq

/-- Both variants install `signal_handler` for SIGINT before anything else
(v1 line 101, v2 line 249); the handler calls `sys.exit(0)` (v1 line 97,
v2 line 223), so a delivered SIGINT raises `SystemExit` at the interrupted
point — never `KeyboardInterrupt`. -/
def sigintRaises : PyExn :=
  .systemExit

/-- The v2 loop-iteration exception dispatch (lines 435-440): the
`except KeyboardInterrupt` clause writes the 0x03 interrupt byte to the pty
master and continues; the bare `except` clause breaks out of the loop. -/
def handleLoopExnV2 (st : TState) (e : PyExn) : TState :=
  match e with
  | .keyboardInterrupt => { st with childInput := st.childInput ++ ["\x03"] }
  | .systemExit => { st with done := true }

/-- The v1 dispatch around the loop (lines 228-241): `except
KeyboardInterrupt` prints and falls through to the `finally`;
`except Exception` appends an `error` record and re-raises; `SystemExit`
is neither, so it passes straight to the `finally`. -/
def handleLoopExnV1 (st : TState) (e : PyExn) : TState :=
  match e with
  | .keyboardInterrupt => { st with done := true }
  | .systemExit => { st with done := true, exitKind := .sysExit }

/-- Successful forwarding of an input chunk (both variants): write to the
master, then `bytes_in += len(data)`, `append_raw`, `append_jsonl` of the
`io` record. -/
def stepInData (p : Params) (st : TState) (s : String) : TState :=
  let n := s.length
  let bi := st.bytesIn + n
  pushRecord
    { st with bytesIn := bi, raw := st.raw ++ s, childInput := st.childInput ++ [s] }
    (ioInRec p (tsTag st.steps) n s bi)

/-- Successful forwarding of an output chunk (both variants): write to the
real stdout, then `bytes_out += len(data)`, `append_raw`, `append_jsonl`. -/
def stepOutData (p : Params) (st : TState) (s : String) : TState :=
  let n := s.length
  let bo := st.bytesOut + n
  pushRecord
    { st with bytesOut := bo, raw := st.raw ++ s, fwdOut := st.fwdOut ++ [s] }
    (ioOutRec p (tsTag st.steps) n s bo)

/-- The v1 `except Exception` path (lines 232-241): append an `error`
record, re-raise; the `finally` then runs and the exception continues to
propagate after finalization. -/
def stepErrorRec (p : Params) (st : TState) (msg ty : String) : TState :=
  let st' := pushRecord st (errorRec p (tsTag st.steps) msg ty)
  { st' with done := true, exitKind := .raised }

/-- One iteration of the v2 relay loop (codex-tee-v2.py lines 366-440),
given that the loop is still running. Stdin branch (371-393): an empty
read breaks (before the forwarding write is attempted); any `OSError` on
the read or the forwarding write breaks; otherwise forward and log. Pty
branch (395-433): empty read breaks; on `EIO` and `EAGAIN`/`EWOULDBLOCK`
the `waitpid(pid, WNOHANG)` probe (lines 420-426) runs first, and when the
child is an exited zombie it returns the pid — *reaping the child* — and
the loop breaks; a probe finding no exited child is followed by a break
for `EIO` and a continue for `EAGAIN`/`EWOULDBLOCK`; any other `OSError`
is re-raised and caught by the bare `except`, which breaks. A SIGINT
raises `SystemExit` (the installed handler), dispatched by
`handleLoopExnV2`; any other exception is caught by the bare `except`
and breaks. -/
def stepV2Ev (p : Params) (st : TState) : Ev → TState
  | .stdinData s .ok => if s = "" then { st with done := true } else stepInData p st s
  | .stdinData _ .eio => { st with done := true }
  | .stdinData _ (.othr _ _) => { st with done := true }
  | .stdinEOF => { st with done := true }
  | .stdinReadErr => { st with done := true }
  | .stdinEAGAIN => { st with done := true }
  | .ptyData s => if s = "" then { st with done := true } else stepOutData p st s
  | .ptyEOF => { st with done := true }
  | .ptyEio childExited =>
      if childExited then { st with done := true, childReaped := true }
      else { st with done := true }
  | .ptyEAGAIN childExited =>
      if childExited then { st with done := true, childReaped := true } else st
  | .ptyErrOther _ _ => { st with done := true }
  | .sigInt => handleLoopExnV2 st sigintRaises
  | .otherExn _ _ => { st with done := true }

/-- The v2 loop with the `break` semantics made explicit: once the loop
has been left (`done`), later events no longer affect the state. -/
def stepV2 (p : Params) (st : TState) (e : Ev) : TState :=
  if st.done then st else stepV2Ev p st e

/-- One iteration of the v1 relay loop (codex-tee.py lines 163-241), given
that the loop is still running. Pty branch (167-193): `EIO` or an empty
read breaks; any other `OSError` is re-raised into the `except Exception`
clause (error record, re-raise). Stdin branch (195-226): `EAGAIN`
continues; another read error breaks; an empty read closes the master and
breaks (the write outcome is irrelevant, no write is attempted); a
forwarding-write `EIO` breaks, another write error re-raises into the
`except Exception` clause. SIGINT raises `SystemExit` (the installed
handler), which no `except` clause of v1 catches, so it falls through to
the `finally`. -/
def stepV1Ev (p : Params) (st : TState) : Ev → TState
  | .stdinData s .ok =>
      if s = "" then { st with done := true, masterClosed := true }
      else stepInData p st s
  | .stdinData s .eio =>
      if s = "" then { st with done := true, masterClosed := true }
      else { st with done := true }
  | .stdinData s (.othr msg ty) =>
      if s = "" then { st with done := true, masterClosed := true }
      else stepErrorRec p st msg ty
  | .stdinEOF => { st with done := true, masterClosed := true }
  | .stdinReadErr => { st with done := true }
  | .stdinEAGAIN => st
  | .ptyData s => if s = "" then { st with done := true } else stepOutData p st s
  | .ptyEOF => { st with done := true }
  | .ptyEio _ => { st with done := true }
  | .ptyEAGAIN _ =>
      stepErrorRec p st "[Errno 11] Resource temporarily unavailable" "OSError"
  | .ptyErrOther msg ty => stepErrorRec p st msg ty
  | .sigInt => handleLoopExnV1 st sigintRaises
  | .otherExn msg ty => stepErrorRec p st msg ty

/-- The v1 loop with the `break`/re-raise semantics made explicit: once
the loop has been left, later events no longer affect the state. -/
def stepV1 (p : Params) (st : TState) (e : Ev) : TState :=
  if st.done then st else stepV1Ev p st e

/-- Run a relay loop over a sequence of serviced events. -/
def runLoop (step : Params → TState → Ev → TState) (p : Params) (st : TState)
    (evs : List Ev) : TState :=
  evs.foldl (step p) st

/-- Exit code produced by the blocking `waitpid(pid, 0)` of the `finally`
blocks when it actually runs: the child's exit status if it reported a
normal exit (`some n`), `-1` if it was unobtainable — waitpid error, or a
signalled child in v2's `WIFEXITED` check (v1 lines 251-255, v2 lines
448-452). -/
def ecOf (childStatus : Option Int) : Int :=
  match childStatus with
  | some n => n
  | none => -1

/-- Exit code recorded by v2's `finally` (lines 448-452): when the relay
loop's `waitpid(WNOHANG)` probe already reaped the child, the blocking
`waitpid(pid, 0)` raises `ChildProcessError`, the bare `except` catches it
and the exit code becomes `-1` — the child's real status, discarded by the
probe, is lost; otherwise the blocking `waitpid` runs and yields `ecOf`. -/
def ecOfV2 (reaped : Bool) (cs : Option Int) : Int :=
  if reaped then -1 else ecOf cs

/-- The v1 `finally` block's log finalization (lines 243-267): reap the
child (v1 has no earlier `waitpid`, so the blocking call always runs) and
append the `session_ended` record. -/
def finalizeV1 (p : Params) (cs : Option Int) (st : TState) : TState :=
  pushRecord st (endedRecV1 p (tsTag st.steps) (ecOf cs) st.bytesIn st.bytesOut)

/-- The v2 `finally` block's log finalization (lines 442-469): the exit
code is `-1` when the loop's probe already reaped the child, and the
blocking `waitpid` outcome otherwise. -/
def finalizeV2 (p : Params) (cs : Option Int) (st : TState) : TState :=
  pushRecord st
    (endedRecV2 p (tsTag st.steps) (ecOfV2 st.childReaped cs) st.bytesIn st.bytesOut)

/-- A complete v1 session from setup through finalization; the `finally`
block runs on every way out of the loop, so finalization follows the loop
unconditionally. -/
def sessionV1 (p : Params) (evs : List Ev) (cs : Option Int) : TState :=
  finalizeV1 p cs (runLoop stepV1 p (initV1 p) evs)

/-- A complete v2 session from setup through finalization. -/
def sessionV2 (p : Params) (evs : List Ev) (cs : Option Int) : TState :=
  finalizeV2 p cs (runLoop stepV2 p (initV2 p) evs)

/-- Environment of one recorder invocation: whether `shutil.which("codex")`
resolves, whether `pty.fork()` succeeds, whether stdin is a tty and the
termios attributes `tcgetattr` would capture, plus the session inputs. -/
structure Env where
  codexFound : Bool
  forkOk : Bool
  stdinIsAtty : Bool
  termiosSettings : String
  p : Params
  evs : List Ev
  childStatus : Option Int

/-- Externally observable outcome of one recorder process: its own exit
status, whether the meta file was written, the structured log and raw
transcript contents, and the termios attributes passed to `tcsetattr` on
the way out (none if it was never called). -/
structure MainResult where
  exitStatus : Nat
  metaWritten : Bool
  log : List Record
  raw : String
  restoredTermios : Option String
deriving DecidableEq

/-- Whole-process model of v2's `main()` (codex-tee-v2.py lines 245-532).
`which` failing exits 127 before any session file is touched (lines
254-256). Otherwise the meta file is written (line 269) and the
`session_started` record appended (line 303) before the `try` block. If
`pty.fork` raises, the `finally` still restores the terminal (its first
statement, lines 443-445), and its guarded `waitpid` fails on the unbound
`pid` (`exit_code = -1`), but building `session_end_record` (line 457)
then raises `UnboundLocalError` on the unbound `bytes_in` — `finally` has
no handler for it — so *no* `session_ended` record is appended and the
interpreter dies with status 1, the structured log still holding only the
`session_started` record. On every loop path the loop is left by `break`
(including `SystemExit` from the SIGINT handler, swallowed by the bare
`except`), the `finally` restores the terminal (guarded by `stdin_isatty
and old_tty_settings`; `tcgetattr` yields a truthy list) and finalizes
the log, and `main` falls off its end — the interpreter exits 0; the
child's own status is never passed to `sys.exit`. -/
def mainV2 (env : Env) : MainResult :=
  if !env.codexFound then ⟨127, false, [], "", none⟩
  else
    let saved := if env.stdinIsAtty then some env.termiosSettings else none
    if !env.forkOk then ⟨1, true, (initV2 env.p).log, "", saved⟩
    else
      let stF := finalizeV2 env.p env.childStatus (runLoop stepV2 env.p (initV2 env.p) env.evs)
      ⟨0, true, stF.log, stF.raw, saved⟩

/-- Whole-process model of v1's `main()` (codex-tee.py lines 99-300).
`which` failing exits 127 with no files (lines 105-107). `pty.fork` sits
before the `try` (line 140), so its failure calls `sys.exit(1)` with the
meta file and the `session_started` record already written and no
finalization. Otherwise the `finally` always finalizes; afterwards a
re-raised loop exception terminates the interpreter with status 1, while
the normal and `SystemExit(0)` paths exit 0 — the child's own status is
never passed to `sys.exit`. v1 performs no termios handling at all. -/
def mainV1 (env : Env) : MainResult :=
  if !env.codexFound then ⟨127, false, [], "", none⟩
  else if !env.forkOk then ⟨1, true, (initV1 env.p).log, "", none⟩
  else
    let stL := runLoop stepV1 env.p (initV1 env.p) env.evs
    let stF := finalizeV1 env.p env.childStatus stL
    ⟨(match stL.exitKind with | .raised => 1 | _ => 0), true, stF.log, stF.raw, none⟩

/-- Contribution of one record to the per-direction byte totals of the
structured log: its `bytes` field if it is an `io` record of the given
direction, 0 otherwise. -/
def ioContrib (dir : String) (r : Record) : Int :=
  if r.getStr "direction" = some dir then (r.getInt "bytes").getD 0 else 0

/-- Sum of the `bytes` fields of the `io` records of one direction. -/
def ioSum (dir : String) (log : List Record) : Int :=
  (log.map (ioContrib dir)).sum

/-! ## The daily-rollup session analyzer

Embedding of `SessionAnalyzer` of `src/lib/codex-daily-rollup.py`:
`parse_jsonl_file` (lines 85-140) and the session-outcome counting of
`analyze_sessions` (lines 142-154). -/

/-- One JSON record as read back from a session log by the rollup, with
the fields `parse_jsonl_file` accesses; a missing field is `none`
(`record.get(...)`). The statistics of `analyze_sessions` not referenced
by any claim (durations, token and cost estimates, command/model/hour
counters) are not modelled; neither are the per-session fields feeding
only those statistics (`start_time`, `end_time`, `cmd`, `model`,
`io_events`). -/
structure RollupRec where
  session_id : Option String
  event : Option String
  direction : Option String
  exit_code : Option Int
  total_bytes_in : Option Int
  total_bytes_out : Option Int
deriving DecidableEq

/-- The `session_id` of a record if it is truthy (line 99-101: a missing
or empty `session_id` makes the parser skip the record). -/
def truthyId (r : RollupRec) : Option String :=
  match r.session_id with
  | some s => if s = "" then none else some s
  | none => none

/-- The modelled components of the per-session dict initialized at lines
104-113: `exit_code` starts as `None`, the byte totals as 0. -/
structure SessDat where
  exit_code : Option Int
  bytes_in : Int
  bytes_out : Int
deriving DecidableEq

/-- Initial per-session dict (lines 104-113). -/
def SessDat.init : SessDat :=
  ⟨none, 0, 0⟩

/-- The analyzer's `self.sessions` dict: insertion-ordered map from session
id to per-session data. -/
abbrev Sessions := List (String × SessDat)

/-- Lines 103-113: create the per-session dict on first sight of an id. -/
def ensureSession (m : Sessions) (k : String) : Sessions :=
  if m.any (fun q => q.1 == k) then m else m ++ [(k, SessDat.init)]

/-- In-place mutation of the session stored under an id. -/
def updateSession (m : Sessions) (k : String) (f : SessDat → SessDat) : Sessions :=
  m.map fun q => if q.1 = k then (q.1, f q.2) else q

/-- Processing of one parsed line by `parse_jsonl_file` (lines 93-138):
skip records without a truthy `session_id`; create the session entry when
new; a `session_started` record updates only unmodelled fields; a
`session_ended` record stores `record.get("exit_code", -1)` and the byte
totals; an `io` record appends only to the unmodelled `io_events`. -/
def parseStep (m : Sessions) (r : RollupRec) : Sessions :=
  match truthyId r with
  | none => m
  | some sid =>
      let m' := ensureSession m sid
      if r.event = some "session_started" then m'
      else if r.event = some "session_ended" then
        updateSession m' sid fun s =>
          { s with exit_code := some (r.exit_code.getD (-1)),
                   bytes_in := r.total_bytes_in.getD 0,
                   bytes_out := r.total_bytes_out.getD 0 }
      else m'

/-- `parse_jsonl_file` over the concatenation of all parsed lines of all
processed files (the analyzer accumulates across files in `self.sessions`). -/
def parse_jsonl (records : List RollupRec) : Sessions :=
  records.foldl parseStep []

/-- The outcome counters of `daily_stats` that C10 references. -/
structure DailyStats where
  total_sessions : Nat
  successful_sessions : Nat
  failed_sessions : Nat
deriving DecidableEq

/-- Lines 147-152: `session.get("exit_code", -1)` is the stored value (the
key always exists, holding `None` until a `session_ended` record arrives,
and `None == 0` is false), so a session counts as successful exactly when
the stored exit code is `0`. -/
def analyzeStep (st : DailyStats) (s : SessDat) : DailyStats :=
  if s.exit_code = some 0 then
    { st with successful_sessions := st.successful_sessions + 1 }
  else
    { st with failed_sessions := st.failed_sessions + 1 }

/-- The session-outcome counting of `analyze_sessions` (lines 142-154):
`total_sessions = len(self.sessions)`, then one successful/failed
increment per session. -/
def analyze_sessions (m : Sessions) : DailyStats :=
  (m.map Prod.snd).foldl analyzeStep ⟨m.length, 0, 0⟩

/-- The last `session_ended` record for a given id in a record list. -/
def lastEnded (records : List RollupRec) (sid : String) : Option RollupRec :=
  (records.filter fun r => truthyId r == some sid && r.event == some "session_ended").getLast?

/-! ## Association-list lemmas for `Record` -/

theorem getVal_map_update {k : String} (v : JsonVal) :
    ∀ {r : Record}, Record.hasKey r k = true →
      Record.getVal (r.map fun p => if p.1 = k then (k, v) else p) k = some v := by
  intro r h
  induction r with
  | nil => simp [Record.hasKey] at h
  | cons p r ih =>
    by_cases hp : p.1 = k
    · simp [Record.getVal, hp]
    · have h' : Record.hasKey r k = true := by
        simp only [Record.hasKey, beq_iff_eq, Bool.or_eq_true, decide_eq_true_eq] at h
        rcases h with h | h
        · exact absurd h hp
        · exact h
      simp [Record.getVal, hp, ih h']

theorem getVal_concat_self {k : String} (v : JsonVal) :
    ∀ {r : Record}, Record.hasKey r k = false →
      Record.getVal (r ++ [(k, v)]) k = some v := by
  intro r h
  induction r with
  | nil => simp [Record.getVal]
  | cons p r ih =>
    simp only [Record.hasKey, Bool.or_eq_false_iff] at h
    obtain ⟨h1, h2⟩ := h
    have hp : ¬p.1 = k := by simpa using h1
    simp [Record.getVal, hp, ih h2]

theorem getVal_map_update_ne {k k' : String} (v : JsonVal) (hne : k' ≠ k) :
    ∀ (r : Record),
      Record.getVal (r.map fun p => if p.1 = k then (k, v) else p) k' =
        Record.getVal r k' := by
  intro r
  induction r with
  | nil => simp [Record.getVal]
  | cons p r ih =>
    by_cases hp : p.1 = k
    · simp [Record.getVal, hp, Ne.symm hne, ih]
    · by_cases hp' : p.1 = k'
      · simp only [List.map_cons, if_neg hp]
        simp [Record.getVal, hp']
      · simp [Record.getVal, hp, hp', ih]

theorem getVal_concat_ne {k k' : String} (v : JsonVal) (hne : k' ≠ k) :
    ∀ (r : Record), Record.getVal (r ++ [(k, v)]) k' = Record.getVal r k' := by
  intro r
  induction r with
  | nil => simp [Record.getVal, Ne.symm hne]
  | cons p r ih =>
    by_cases hp' : p.1 = k'
    · simp [Record.getVal, hp']
    · simp [Record.getVal, hp', ih]

/-- Dict assignment then lookup of the same key yields the new value. -/
theorem getVal_set_self (r : Record) (k : String) (v : JsonVal) :
    Record.getVal (Record.set r k v) k = some v := by
  unfold Record.set
  by_cases h : Record.hasKey r k = true
  · simp [h, getVal_map_update v h]
  · simp only [Bool.not_eq_true] at h
    simp [h, getVal_concat_self v h]

/-- Dict assignment leaves lookups of other keys unchanged. -/
theorem getVal_set_ne (r : Record) {k k' : String} (v : JsonVal) (hne : k' ≠ k) :
    Record.getVal (Record.set r k v) k' = Record.getVal r k' := by
  unfold Record.set
  by_cases h : Record.hasKey r k = true
  · simp [h, getVal_map_update_ne v hne r]
  · simp only [Bool.not_eq_true] at h
    simp [h, getVal_concat_ne v hne r]

theorem getStr_set_self (r : Record) (k : String) (s : String) :
    Record.getStr (Record.set r k (.str s)) k = some s := by
  simp [Record.getStr, getVal_set_self]

theorem getStr_set_ne (r : Record) {k k' : String} (v : JsonVal) (hne : k' ≠ k) :
    Record.getStr (Record.set r k v) k' = Record.getStr r k' := by
  simp [Record.getStr, getVal_set_ne r v hne]

theorem getInt_set_ne (r : Record) {k k' : String} (v : JsonVal) (hne : k' ≠ k) :
    Record.getInt (Record.set r k v) k' = Record.getInt r k' := by
  simp [Record.getInt, getVal_set_ne r v hne]

theorem hasKey_map_update_ne {k k' : String} (v : JsonVal) (hne : k' ≠ k) :
    ∀ (r : Record),
      Record.hasKey (r.map fun p => if p.1 = k then (k, v) else p) k' =
        Record.hasKey r k' := by
  intro r
  have hkk : (k == k') = false := by
    simpa using Ne.symm hne
  induction r with
  | nil => simp
  | cons p r ih =>
    by_cases hp : p.1 = k
    · simp [Record.hasKey, hp, hkk, ih]
    · simp [Record.hasKey, hp, ih]

theorem hasKey_concat_ne {k k' : String} (v : JsonVal) (hne : k' ≠ k) :
    ∀ (r : Record), Record.hasKey (r ++ [(k, v)]) k' = Record.hasKey r k' := by
  intro r
  have hkk : (k == k') = false := by
    simpa using Ne.symm hne
  induction r with
  | nil => simp [Record.hasKey, hkk]
  | cons p r ih =>
    simp [Record.hasKey, ih]

/-- Assigning one key does not create or remove any other key. -/
theorem hasKey_set_ne (r : Record) {k k' : String} (v : JsonVal) (hne : k' ≠ k) :
    Record.hasKey (Record.set r k v) k' = Record.hasKey r k' := by
  unfold Record.set
  by_cases h : Record.hasKey r k = true
  · simp [h, hasKey_map_update_ne v hne r]
  · simp only [Bool.not_eq_true] at h
    simp [h, hasKey_concat_ne v hne r]

theorem getVal_withPrevHash_ne (r : Record) (ph : Option String) {k : String}
    (hne : k ≠ "prev_hash") :
    Record.getVal (withPrevHash r ph) k = Record.getVal r k := by
  cases ph with
  | none => rfl
  | some h => simp [withPrevHash, getVal_set_ne _ _ hne]

theorem getStr_withPrevHash_ne (r : Record) (ph : Option String) {k : String}
    (hne : k ≠ "prev_hash") :
    Record.getStr (withPrevHash r ph) k = Record.getStr r k := by
  simp [Record.getStr, getVal_withPrevHash_ne r ph hne]

theorem getInt_withPrevHash_ne (r : Record) (ph : Option String) {k : String}
    (hne : k ≠ "prev_hash") :
    Record.getInt (withPrevHash r ph) k = Record.getInt r k := by
  simp [Record.getInt, getVal_withPrevHash_ne r ph hne]

theorem dir_withPrevHash (r : Record) (ph : Option String) :
    Record.getStr (withPrevHash r ph) "direction" = Record.getStr r "direction" :=
  getStr_withPrevHash_ne r ph (by decide)

theorem bytes_withPrevHash (r : Record) (ph : Option String) :
    Record.getInt (withPrevHash r ph) "bytes" = Record.getInt r "bytes" :=
  getInt_withPrevHash_ne r ph (by decide)

/-! ## Field values of the concrete transcript records -/

theorem dir_startedRecV1 (p : Params) (ts : String) :
    Record.getStr (startedRecV1 p ts) "direction" = none := by
  simp +decide [startedRecV1, Record.getStr, Record.getVal]

theorem dir_startedRecV2 (p : Params) (ts : String) :
    Record.getStr (startedRecV2 p ts) "direction" = none := by
  cases h : p.codexUuid <;>
    simp +decide [startedRecV2, startedRecV1, h, Record.getStr, getVal_set_ne, Record.getVal]

theorem dir_endedRecV1 (p : Params) (ts : String) (ec : Int) (bin bout : Nat) :
    Record.getStr (endedRecV1 p ts ec bin bout) "direction" = none := by
  simp +decide [endedRecV1, Record.getStr, Record.getVal]

theorem dir_endedRecV2 (p : Params) (ts : String) (ec : Int) (bin bout : Nat) :
    Record.getStr (endedRecV2 p ts ec bin bout) "direction" = none := by
  cases h : p.codexUuid <;>
    simp +decide [endedRecV2, endedRecV1, h, Record.getStr, getVal_set_ne, Record.getVal]

theorem dir_errorRec (p : Params) (ts msg ty : String) :
    Record.getStr (errorRec p ts msg ty) "direction" = none := by
  simp +decide [errorRec, Record.getStr, Record.getVal]

theorem dir_ioInRec (p : Params) (ts : String) (n : Nat) (text : String) (bi : Nat) :
    Record.getStr (ioInRec p ts n text bi) "direction" = some "in" := by
  simp +decide [ioInRec, Record.getStr, Record.getVal]

theorem dir_ioOutRec (p : Params) (ts : String) (n : Nat) (text : String) (bo : Nat) :
    Record.getStr (ioOutRec p ts n text bo) "direction" = some "out" := by
  simp +decide [ioOutRec, Record.getStr, Record.getVal]

theorem bytes_ioInRec (p : Params) (ts : String) (n : Nat) (text : String) (bi : Nat) :
    Record.getInt (ioInRec p ts n text bi) "bytes" = some n := by
  simp +decide [ioInRec, Record.getInt, Record.getVal]

theorem bytes_ioOutRec (p : Params) (ts : String) (n : Nat) (text : String) (bo : Nat) :
    Record.getInt (ioOutRec p ts n text bo) "bytes" = some n := by
  simp +decide [ioOutRec, Record.getInt, Record.getVal]

theorem event_endedRecV1 (p : Params) (ts : String) (ec : Int) (bin bout : Nat) :
    Record.getStr (endedRecV1 p ts ec bin bout) "event" = some "session_ended" := by
  simp +decide [endedRecV1, Record.getStr, Record.getVal]

theorem event_endedRecV2 (p : Params) (ts : String) (ec : Int) (bin bout : Nat) :
    Record.getStr (endedRecV2 p ts ec bin bout) "event" = some "session_ended" := by
  cases h : p.codexUuid <;>
    simp +decide [endedRecV2, endedRecV1, h, Record.getStr, getVal_set_ne, Record.getVal]

theorem ec_endedRecV1 (p : Params) (ts : String) (ec : Int) (bin bout : Nat) :
    Record.getInt (endedRecV1 p ts ec bin bout) "exit_code" = some ec := by
  simp +decide [endedRecV1, Record.getInt, Record.getVal]

theorem ec_endedRecV2 (p : Params) (ts : String) (ec : Int) (bin bout : Nat) :
    Record.getInt (endedRecV2 p ts ec bin bout) "exit_code" = some ec := by
  cases h : p.codexUuid <;>
    simp +decide [endedRecV2, endedRecV1, h, Record.getInt, getVal_set_ne, Record.getVal]

theorem tin_endedRecV1 (p : Params) (ts : String) (ec : Int) (bin bout : Nat) :
    Record.getInt (endedRecV1 p ts ec bin bout) "total_bytes_in" = some bin := by
  simp +decide [endedRecV1, Record.getInt, Record.getVal]

theorem tin_endedRecV2 (p : Params) (ts : String) (ec : Int) (bin bout : Nat) :
    Record.getInt (endedRecV2 p ts ec bin bout) "total_bytes_in" = some bin := by
  cases h : p.codexUuid <;>
    simp +decide [endedRecV2, endedRecV1, h, Record.getInt, getVal_set_ne, Record.getVal]

theorem tout_endedRecV1 (p : Params) (ts : String) (ec : Int) (bin bout : Nat) :
    Record.getInt (endedRecV1 p ts ec bin bout) "total_bytes_out" = some bout := by
  simp +decide [endedRecV1, Record.getInt, Record.getVal]

theorem tout_endedRecV2 (p : Params) (ts : String) (ec : Int) (bin bout : Nat) :
    Record.getInt (endedRecV2 p ts ec bin bout) "total_bytes_out" = some bout := by
  cases h : p.codexUuid <;>
    simp +decide [endedRecV2, endedRecV1, h, Record.getInt, getVal_set_ne, Record.getVal]

theorem noPrevHashKey_startedRecV1 (p : Params) (ts : String) :
    Record.hasKey (startedRecV1 p ts) "prev_hash" = false := by
  simp +decide [startedRecV1, Record.hasKey]

theorem noPrevHashKey_startedRecV2 (p : Params) (ts : String) :
    Record.hasKey (startedRecV2 p ts) "prev_hash" = false := by
  cases h : p.codexUuid <;>
    simp +decide [startedRecV2, h, hasKey_set_ne, noPrevHashKey_startedRecV1]

/-! ## The byte-accounting invariant (C3) -/

/-- The invariant C3 claims: at any point, the raw transcript length equals
the sum of the two counters, and the per-direction sums of the `bytes`
fields of the `io` records equal the respective counters. -/
def c3Inv (st : TState) : Prop :=
  st.raw.length = st.bytesIn + st.bytesOut ∧
  ioSum "in" st.log = st.bytesIn ∧
  ioSum "out" st.log = st.bytesOut

theorem ioSum_append (dir : String) (l1 l2 : List Record) :
    ioSum dir (l1 ++ l2) = ioSum dir l1 + ioSum dir l2 := by
  simp [ioSum]

theorem ioContrib_of_dir_none (dir : String) (r : Record)
    (h : Record.getStr r "direction" = none) : ioContrib dir r = 0 := by
  simp [ioContrib, h]

theorem c3Inv_pushRecord (st : TState) (r : Record)
    (h : Record.getStr r "direction" = none) (inv : c3Inv st) :
    c3Inv (pushRecord st r) := by
  obtain ⟨h1, h2, h3⟩ := inv
  refine ⟨h1, ?_, ?_⟩
  · simp [pushRecord, append_jsonl, ioSum, ioContrib, dir_withPrevHash, h]
    simpa [ioSum, ioContrib] using h2
  · simp [pushRecord, append_jsonl, ioSum, ioContrib, dir_withPrevHash, h]
    simpa [ioSum, ioContrib] using h3

theorem c3Inv_stepInData (p : Params) (st : TState) (s : String) (inv : c3Inv st) :
    c3Inv (stepInData p st s) := by
  obtain ⟨h1, h2, h3⟩ := inv
  unfold stepInData pushRecord append_jsonl
  refine ⟨?_, ?_, ?_⟩
  · simp [h1]
    omega
  · simp [ioSum, ioContrib, dir_withPrevHash, bytes_withPrevHash,
      dir_ioInRec, bytes_ioInRec]
    simp [ioSum, ioContrib] at h2
    omega
  · simp [ioSum, ioContrib, dir_withPrevHash, dir_ioInRec]
    simpa [ioSum, ioContrib] using h3

theorem c3Inv_stepOutData (p : Params) (st : TState) (s : String) (inv : c3Inv st) :
    c3Inv (stepOutData p st s) := by
  obtain ⟨h1, h2, h3⟩ := inv
  unfold stepOutData pushRecord append_jsonl
  refine ⟨?_, ?_, ?_⟩
  · simp [h1]
    omega
  · simp [ioSum, ioContrib, dir_withPrevHash, dir_ioOutRec]
    simpa [ioSum, ioContrib] using h2
  · simp [ioSum, ioContrib, dir_withPrevHash, bytes_withPrevHash,
      dir_ioOutRec, bytes_ioOutRec]
    simp [ioSum, ioContrib] at h3
    omega

theorem c3Inv_stepErrorRec (p : Params) (st : TState) (msg ty : String) (inv : c3Inv st) :
    c3Inv (stepErrorRec p st msg ty) := by
  have h := c3Inv_pushRecord st (errorRec p (tsTag st.steps) msg ty) (dir_errorRec ..) inv
  exact h

theorem c3Inv_stepV2Ev (p : Params) (st : TState) (e : Ev) (inv : c3Inv st) :
    c3Inv (stepV2Ev p st e) := by
  cases e with
  | stdinData s w =>
      cases w with
      | ok =>
          simp only [stepV2Ev]
          by_cases hs : s = ""
          · rw [if_pos hs]; exact inv
          · rw [if_neg hs]; exact c3Inv_stepInData p st s inv
      | eio => exact inv
      | othr msg ty => exact inv
  | stdinEOF => exact inv
  | stdinReadErr => exact inv
  | stdinEAGAIN => exact inv
  | ptyData s =>
      simp only [stepV2Ev]
      by_cases hs : s = ""
      · rw [if_pos hs]; exact inv
      · rw [if_neg hs]; exact c3Inv_stepOutData p st s inv
  | ptyEOF => exact inv
  | ptyEio b =>
      simp only [stepV2Ev]
      by_cases hb : b = true
      · rw [if_pos hb]; exact inv
      · rw [if_neg hb]; exact inv
  | ptyEAGAIN b =>
      simp only [stepV2Ev]
      by_cases hb : b = true
      · rw [if_pos hb]; exact inv
      · rw [if_neg hb]; exact inv
  | ptyErrOther msg ty => exact inv
  | sigInt => exact inv
  | otherExn msg ty => exact inv

theorem c3Inv_stepV2 (p : Params) (st : TState) (e : Ev) (inv : c3Inv st) :
    c3Inv (stepV2 p st e) := by
  unfold stepV2
  by_cases hd : st.done = true
  · rw [if_pos hd]; exact inv
  · rw [if_neg hd]; exact c3Inv_stepV2Ev p st e inv

theorem c3Inv_stepV1Ev (p : Params) (st : TState) (e : Ev) (inv : c3Inv st) :
    c3Inv (stepV1Ev p st e) := by
  cases e with
  | stdinData s w =>
      cases w with
      | ok =>
          simp only [stepV1Ev]
          by_cases hs : s = ""
          · rw [if_pos hs]; exact inv
          · rw [if_neg hs]; exact c3Inv_stepInData p st s inv
      | eio =>
          simp only [stepV1Ev]
          by_cases hs : s = ""
          · rw [if_pos hs]; exact inv
          · rw [if_neg hs]; exact inv
      | othr msg ty =>
          simp only [stepV1Ev]
          by_cases hs : s = ""
          · rw [if_pos hs]; exact inv
          · rw [if_neg hs]; exact c3Inv_stepErrorRec p st msg ty inv
  | stdinEOF => exact inv
  | stdinReadErr => exact inv
  | stdinEAGAIN => exact inv
  | ptyData s =>
      simp only [stepV1Ev]
      by_cases hs : s = ""
      · rw [if_pos hs]; exact inv
      · rw [if_neg hs]; exact c3Inv_stepOutData p st s inv
  | ptyEOF => exact inv
  | ptyEio b => exact inv
  | ptyEAGAIN b => exact c3Inv_stepErrorRec p st _ _ inv
  | ptyErrOther msg ty => exact c3Inv_stepErrorRec p st msg ty inv
  | sigInt => exact inv
  | otherExn msg ty => exact c3Inv_stepErrorRec p st msg ty inv

theorem c3Inv_stepV1 (p : Params) (st : TState) (e : Ev) (inv : c3Inv st) :
    c3Inv (stepV1 p st e) := by
  unfold stepV1
  by_cases hd : st.done = true
  · rw [if_pos hd]; exact inv
  · rw [if_neg hd]; exact c3Inv_stepV1Ev p st e inv

theorem c3Inv_runLoop (step : Params → TState → Ev → TState)
    (hstep : ∀ p st e, c3Inv st → c3Inv (step p st e)) (p : Params) :
    ∀ (evs : List Ev) (st : TState), c3Inv st → c3Inv (runLoop step p st evs) := by
  intro evs
  induction evs with
  | nil => intro st inv; exact inv
  | cons e evs ih =>
      intro st inv
      exact ih (step p st e) (hstep p st e inv)

theorem c3Inv_initLoop (first : Record)
    (h : Record.getStr first "direction" = none) : c3Inv (initLoop first) := by
  apply c3Inv_pushRecord _ _ h
  exact ⟨rfl, rfl, rfl⟩

theorem c3Inv_initV1 (p : Params) : c3Inv (initV1 p) :=
  c3Inv_initLoop _ (dir_startedRecV1 p _)

theorem c3Inv_initV2 (p : Params) : c3Inv (initV2 p) :=
  c3Inv_initLoop _ (dir_startedRecV2 p _)

theorem c3Inv_finalizeV1 (p : Params) (cs : Option Int) (st : TState) (inv : c3Inv st) :
    c3Inv (finalizeV1 p cs st) :=
  c3Inv_pushRecord _ _ (dir_endedRecV1 ..) inv

theorem c3Inv_finalizeV2 (p : Params) (cs : Option Int) (st : TState) (inv : c3Inv st) :
    c3Inv (finalizeV2 p cs st) :=
  c3Inv_pushRecord _ _ (dir_endedRecV2 ..) inv

/-! ## Generic loop lemmas -/

theorem runLoop_preserves (P : TState → Prop) (step : Params → TState → Ev → TState)
    (hstep : ∀ p st e, P st → P (step p st e)) (p : Params) :
    ∀ (evs : List Ev) (st : TState), P st → P (runLoop step p st evs) := by
  intro evs
  induction evs with
  | nil => intro st inv; exact inv
  | cons e evs ih => intro st inv; exact ih (step p st e) (hstep p st e inv)

theorem runLoop_append (step : Params → TState → Ev → TState) (p : Params)
    (st : TState) (l1 l2 : List Ev) :
    runLoop step p st (l1 ++ l2) = runLoop step p (runLoop step p st l1) l2 := by
  simp [runLoop, List.foldl_append]

theorem stepV2_done (p : Params) (st : TState) (e : Ev) (h : st.done = true) :
    stepV2 p st e = st := by
  simp [stepV2, h]

theorem stepV1_done (p : Params) (st : TState) (e : Ev) (h : st.done = true) :
    stepV1 p st e = st := by
  simp [stepV1, h]

theorem runLoop_absorbs (step : Params → TState → Ev → TState)
    (habs : ∀ p st e, st.done = true → step p st e = st) (p : Params) :
    ∀ (evs : List Ev) (st : TState), st.done = true → runLoop step p st evs = st := by
  intro evs
  induction evs with
  | nil => intro st _; rfl
  | cons e evs ih =>
      intro st h
      show runLoop step p (step p st e) evs = st
      rw [habs p st e h]
      exact ih st h

theorem stepV2_stdinEOF_done (p : Params) (st : TState) :
    (stepV2 p st .stdinEOF).done = true := by
  by_cases h : st.done = true <;> simp [stepV2, stepV2Ev, h]

theorem stepV1_stdinEOF_done (p : Params) (st : TState) :
    (stepV1 p st .stdinEOF).done = true := by
  by_cases h : st.done = true <;> simp [stepV1, stepV1Ev, h]

/-! ## The hash-chain invariant (C2, C8) -/

/-- The chain invariant maintained by the threaded `append_jsonl` calls:
the log is linked by `actualLink`, and the hash held for the next append
is the digest of the last written line (or `None` for an empty file). -/
def chainOk (st : TState) : Prop :=
  List.Chain' actualLink st.log ∧
  st.prevHash = st.log.getLast?.map fun r => compute_sha256 (serializeLine r)

theorem chainOk_pushRecord (st : TState) (r : Record) (inv : chainOk st) :
    chainOk (pushRecord st r) := by
  obtain ⟨hc, hp⟩ := inv
  constructor
  · show List.Chain' actualLink (st.log ++ [withPrevHash r st.prevHash])
    rw [List.chain'_append]
    refine ⟨hc, List.chain'_singleton _, ?_⟩
    intro x hx y hy
    rw [Option.mem_def] at hx
    simp only [List.head?_cons, Option.mem_def, Option.some.injEq] at hy
    subst hy
    have hph : st.prevHash = some (compute_sha256 (serializeLine x)) := by
      rw [hp, hx]
      rfl
    rw [hph]
    show Record.getStr (Record.set r "prev_hash" (.str _)) "prev_hash" = _
    rw [getStr_set_self]
  · show some _ = ((st.log ++ [withPrevHash r st.prevHash]).getLast?.map _)
    simp [append_jsonl]

theorem chainOk_stepInData (p : Params) (st : TState) (s : String) (inv : chainOk st) :
    chainOk (stepInData p st s) :=
  chainOk_pushRecord _ _ inv

theorem chainOk_stepOutData (p : Params) (st : TState) (s : String) (inv : chainOk st) :
    chainOk (stepOutData p st s) :=
  chainOk_pushRecord _ _ inv

theorem chainOk_stepErrorRec (p : Params) (st : TState) (msg ty : String)
    (inv : chainOk st) : chainOk (stepErrorRec p st msg ty) :=
  chainOk_pushRecord _ _ inv

theorem chainOk_stepV2Ev (p : Params) (st : TState) (e : Ev) (inv : chainOk st) :
    chainOk (stepV2Ev p st e) := by
  cases e with
  | stdinData s w =>
      cases w with
      | ok =>
          simp only [stepV2Ev]
          by_cases hs : s = ""
          · rw [if_pos hs]; exact inv
          · rw [if_neg hs]; exact chainOk_stepInData p st s inv
      | eio => exact inv
      | othr msg ty => exact inv
  | stdinEOF => exact inv
  | stdinReadErr => exact inv
  | stdinEAGAIN => exact inv
  | ptyData s =>
      simp only [stepV2Ev]
      by_cases hs : s = ""
      · rw [if_pos hs]; exact inv
      · rw [if_neg hs]; exact chainOk_stepOutData p st s inv
  | ptyEOF => exact inv
  | ptyEio b =>
      simp only [stepV2Ev]
      by_cases hb : b = true
      · rw [if_pos hb]; exact inv
      · rw [if_neg hb]; exact inv
  | ptyEAGAIN b =>
      simp only [stepV2Ev]
      by_cases hb : b = true
      · rw [if_pos hb]; exact inv
      · rw [if_neg hb]; exact inv
  | ptyErrOther msg ty => exact inv
  | sigInt => exact inv
  | otherExn msg ty => exact inv

theorem chainOk_stepV2 (p : Params) (st : TState) (e : Ev) (inv : chainOk st) :
    chainOk (stepV2 p st e) := by
  unfold stepV2
  by_cases hd : st.done = true
  · rw [if_pos hd]; exact inv
  · rw [if_neg hd]; exact chainOk_stepV2Ev p st e inv

theorem chainOk_stepV1Ev (p : Params) (st : TState) (e : Ev) (inv : chainOk st) :
    chainOk (stepV1Ev p st e) := by
  cases e with
  | stdinData s w =>
      cases w with
      | ok =>
          simp only [stepV1Ev]
          by_cases hs : s = ""
          · rw [if_pos hs]; exact inv
          · rw [if_neg hs]; exact chainOk_stepInData p st s inv
      | eio =>
          simp only [stepV1Ev]
          by_cases hs : s = ""
          · rw [if_pos hs]; exact inv
          · rw [if_neg hs]; exact inv
      | othr msg ty =>
          simp only [stepV1Ev]
          by_cases hs : s = ""
          · rw [if_pos hs]; exact inv
          · rw [if_neg hs]; exact chainOk_stepErrorRec p st msg ty inv
  | stdinEOF => exact inv
  | stdinReadErr => exact inv
  | stdinEAGAIN => exact inv
  | ptyData s =>
      simp only [stepV1Ev]
      by_cases hs : s = ""
      · rw [if_pos hs]; exact inv
      · rw [if_neg hs]; exact chainOk_stepOutData p st s inv
  | ptyEOF => exact inv
  | ptyEio b => exact inv
  | ptyEAGAIN b => exact chainOk_stepErrorRec p st _ _ inv
  | ptyErrOther msg ty => exact chainOk_stepErrorRec p st msg ty inv
  | sigInt => exact inv
  | otherExn msg ty => exact chainOk_stepErrorRec p st msg ty inv

theorem chainOk_stepV1 (p : Params) (st : TState) (e : Ev) (inv : chainOk st) :
    chainOk (stepV1 p st e) := by
  unfold stepV1
  by_cases hd : st.done = true
  · rw [if_pos hd]; exact inv
  · rw [if_neg hd]; exact chainOk_stepV1Ev p st e inv

theorem chainOk_initLoop (first : Record) : chainOk (initLoop first) := by
  apply chainOk_pushRecord
  exact ⟨List.chain'_nil, rfl⟩

theorem chainOk_finalizeV1 (p : Params) (cs : Option Int) (st : TState)
    (inv : chainOk st) : chainOk (finalizeV1 p cs st) :=
  chainOk_pushRecord _ _ inv

theorem chainOk_finalizeV2 (p : Params) (cs : Option Int) (st : TState)
    (inv : chainOk st) : chainOk (finalizeV2 p cs st) :=
  chainOk_pushRecord _ _ inv

theorem chainOk_sessionV1 (p : Params) (evs : List Ev) (cs : Option Int) :
    chainOk (sessionV1 p evs cs) :=
  chainOk_finalizeV1 p cs _
    (runLoop_preserves chainOk stepV1 chainOk_stepV1 p evs _ (chainOk_initLoop _))

theorem chainOk_sessionV2 (p : Params) (evs : List Ev) (cs : Option Int) :
    chainOk (sessionV2 p evs cs) :=
  chainOk_finalizeV2 p cs _
    (runLoop_preserves chainOk stepV2 chainOk_stepV2 p evs _ (chainOk_initLoop _))

/-! ## Finalization lemmas (C1, C6) -/

theorem finalizeV1_getLast (p : Params) (cs : Option Int) (st : TState) :
    (finalizeV1 p cs st).log.getLast? =
      some (withPrevHash (endedRecV1 p (tsTag st.steps) (ecOf cs) st.bytesIn st.bytesOut)
        st.prevHash) := by
  simp [finalizeV1, pushRecord, append_jsonl]

theorem finalizeV2_getLast (p : Params) (cs : Option Int) (st : TState) :
    (finalizeV2 p cs st).log.getLast? =
      some (withPrevHash
        (endedRecV2 p (tsTag st.steps) (ecOfV2 st.childReaped cs) st.bytesIn st.bytesOut)
        st.prevHash) := by
  simp [finalizeV2, pushRecord, append_jsonl]

theorem endedV1_fields (p : Params) (ts : String) (ec : Int) (bin bout : Nat)
    (ph : Option String) :
    Record.getStr (withPrevHash (endedRecV1 p ts ec bin bout) ph) "event" =
        some "session_ended" ∧
      Record.getInt (withPrevHash (endedRecV1 p ts ec bin bout) ph) "exit_code" = some ec ∧
      Record.getInt (withPrevHash (endedRecV1 p ts ec bin bout) ph) "total_bytes_in" =
        some bin ∧
      Record.getInt (withPrevHash (endedRecV1 p ts ec bin bout) ph) "total_bytes_out" =
        some bout := by
  refine ⟨?_, ?_, ?_, ?_⟩
  · rw [getStr_withPrevHash_ne _ _ (by decide)]; exact event_endedRecV1 ..
  · rw [getInt_withPrevHash_ne _ _ (by decide)]; exact ec_endedRecV1 ..
  · rw [getInt_withPrevHash_ne _ _ (by decide)]; exact tin_endedRecV1 ..
  · rw [getInt_withPrevHash_ne _ _ (by decide)]; exact tout_endedRecV1 ..

theorem endedV2_fields (p : Params) (ts : String) (ec : Int) (bin bout : Nat)
    (ph : Option String) :
    Record.getStr (withPrevHash (endedRecV2 p ts ec bin bout) ph) "event" =
        some "session_ended" ∧
      Record.getInt (withPrevHash (endedRecV2 p ts ec bin bout) ph) "exit_code" = some ec ∧
      Record.getInt (withPrevHash (endedRecV2 p ts ec bin bout) ph) "total_bytes_in" =
        some bin ∧
      Record.getInt (withPrevHash (endedRecV2 p ts ec bin bout) ph) "total_bytes_out" =
        some bout := by
  refine ⟨?_, ?_, ?_, ?_⟩
  · rw [getStr_withPrevHash_ne _ _ (by decide)]; exact event_endedRecV2 ..
  · rw [getInt_withPrevHash_ne _ _ (by decide)]; exact ec_endedRecV2 ..
  · rw [getInt_withPrevHash_ne _ _ (by decide)]; exact tin_endedRecV2 ..
  · rw [getInt_withPrevHash_ne _ _ (by decide)]; exact tout_endedRecV2 ..

/-! ## Rollup analyzer lemmas (C10) -/

theorem keys_updateSession (m : Sessions) (k : String) (f : SessDat → SessDat) :
    (updateSession m k f).map Prod.fst = m.map Prod.fst := by
  induction m with
  | nil => rfl
  | cons q m ih =>
      by_cases h : q.1 = k <;> simp [updateSession, h] <;>
        simpa [updateSession] using ih

theorem mem_updateSession {m : Sessions} {k : String} {f : SessDat → SessDat}
    {sid : String} {s : SessDat} (h : (sid, s) ∈ updateSession m k f) :
    (sid = k ∧ ∃ s0, (sid, s0) ∈ m ∧ s = f s0) ∨ (¬sid = k ∧ (sid, s) ∈ m) := by
  unfold updateSession at h
  rw [List.mem_map] at h
  obtain ⟨q, hq, heq⟩ := h
  by_cases hk : q.1 = k
  · rw [if_pos hk] at heq
    obtain ⟨h1, h2⟩ := Prod.mk.inj heq
    left
    refine ⟨by rw [← h1, hk], q.2, ?_, h2.symm⟩
    rw [← h1, hk, ← hk]
    exact hq
  · rw [if_neg hk] at heq
    subst heq
    exact Or.inr ⟨hk, hq⟩

theorem hasSess_iff (m : Sessions) (k : String) :
    (m.any fun q => q.1 == k) = true ↔ k ∈ m.map Prod.fst := by
  simp [List.any_eq_true, List.mem_map]

theorem ensureSession_of_mem (m : Sessions) (k : String)
    (h : k ∈ m.map Prod.fst) : ensureSession m k = m := by
  unfold ensureSession
  rw [if_pos ((hasSess_iff m k).mpr h)]

theorem ensureSession_of_new (m : Sessions) (k : String)
    (h : ¬k ∈ m.map Prod.fst) : ensureSession m k = m ++ [(k, SessDat.init)] := by
  unfold ensureSession
  rw [if_neg (fun hc => h ((hasSess_iff m k).mp hc))]

theorem nodup_keys_ensure (m : Sessions) (sid0 : String)
    (hnd : (m.map Prod.fst).Nodup) : ((ensureSession m sid0).map Prod.fst).Nodup := by
  by_cases hmem : sid0 ∈ m.map Prod.fst
  · rw [ensureSession_of_mem m sid0 hmem]
    exact hnd
  · rw [ensureSession_of_new m sid0 hmem, List.map_append, List.nodup_append]
    refine ⟨hnd, List.nodup_singleton _, ?_⟩
    intro a ha hb
    simp at hb
    subst hb
    exact hmem ha

theorem keysF_ensure (m : Sessions) (sid0 : String) {F : Finset String}
    (hks : (m.map Prod.fst).toFinset = F) :
    ((ensureSession m sid0).map Prod.fst).toFinset = F ∪ {sid0} := by
  by_cases hmem : sid0 ∈ m.map Prod.fst
  · rw [ensureSession_of_mem m sid0 hmem, hks]
    have h1 : sid0 ∈ F := by
      rw [← hks]
      simpa [List.mem_toFinset] using hmem
    exact (Finset.union_eq_left.mpr (by simpa using h1)).symm
  · rw [ensureSession_of_new m sid0 hmem, List.map_append, List.toFinset_append, hks]
    simp

theorem lastEnded_append_skip (l : List RollupRec) (r : RollupRec) (sid : String)
    (h : (truthyId r == some sid && r.event == some "session_ended") = false) :
    lastEnded (l ++ [r]) sid = lastEnded l sid := by
  unfold lastEnded
  rw [List.filter_append]
  simp [List.filter, h]

theorem lastEnded_append_hit (l : List RollupRec) (r : RollupRec) (sid : String)
    (h : (truthyId r == some sid && r.event == some "session_ended") = true) :
    lastEnded (l ++ [r]) sid = some r := by
  unfold lastEnded
  rw [List.filter_append]
  simp [List.filter, h]

theorem lastEnded_none (l : List RollupRec) (sid : String)
    (h : ∀ rec ∈ l, ¬truthyId rec = some sid) : lastEnded l sid = none := by
  unfold lastEnded
  have hf : (l.filter fun r => truthyId r == some sid && r.event == some "session_ended") =
      [] := by
    rw [List.filter_eq_nil_iff]
    intro a ha
    simp [h a ha]
  rw [hf]
  rfl

/-- The induction invariant for `parse_jsonl_file`: the session-dict keys
are distinct; they are exactly the truthy session ids seen so far; and each
stored `exit_code` is the exit code reported by the last `session_ended`
record of that session (absent when no such record has been seen). -/
def ParseInv (processed : List RollupRec) (m : Sessions) : Prop :=
  (m.map Prod.fst).Nodup ∧
  (m.map Prod.fst).toFinset = (processed.filterMap truthyId).toFinset ∧
  ∀ sid s, (sid, s) ∈ m →
    s.exit_code = (lastEnded processed sid).map fun rec => rec.exit_code.getD (-1)

theorem parseInv_nil : ParseInv [] [] := by
  refine ⟨List.nodup_nil, rfl, ?_⟩
  intro sid s h
  simp at h

/-- Preservation through `ensureSession` when the new record is not a
`session_ended` record (the `session_started` and io/other branches). -/
theorem parseInv_ensure (processed : List RollupRec) (r : RollupRec) (sid0 : String)
    (m : Sessions) (htid : truthyId r = some sid0)
    (hnoend : (r.event == some "session_ended") = false)
    (inv : ParseInv processed m) : ParseInv (processed ++ [r]) (ensureSession m sid0) := by
  obtain ⟨hnd, hks, hec⟩ := inv
  have hskip : ∀ sid, (truthyId r == some sid && r.event == some "session_ended") = false := by
    intro sid
    simp [hnoend]
  by_cases hmem : sid0 ∈ m.map Prod.fst
  · rw [ensureSession_of_mem m sid0 hmem]
    refine ⟨hnd, ?_, ?_⟩
    · rw [hks, List.filterMap_append]
      have h1 : List.filterMap truthyId [r] = [sid0] := by
        simp [List.filterMap, htid]
      rw [h1, List.toFinset_append]
      have h2 : sid0 ∈ (processed.filterMap truthyId).toFinset := by
        rw [← hks]
        simpa [List.mem_toFinset] using hmem
      have h3 : ({sid0} : Finset String) ⊆ (processed.filterMap truthyId).toFinset := by
        simpa using h2
      simp [Finset.union_eq_left.mpr h3]
    · intro sid s hm
      rw [lastEnded_append_skip _ _ _ (hskip sid)]
      exact hec sid s hm
  · rw [ensureSession_of_new m sid0 hmem]
    refine ⟨?_, ?_, ?_⟩
    · rw [List.map_append]
      rw [List.nodup_append]
      refine ⟨hnd, List.nodup_singleton _, ?_⟩
      intro a ha hb
      simp at hb
      subst hb
      exact hmem ha
    · rw [List.map_append, List.filterMap_append, List.toFinset_append,
        List.toFinset_append, hks]
      have h1 : List.filterMap truthyId [r] = [sid0] := by
        simp [List.filterMap, htid]
      rw [h1]
      rfl
    · intro sid s hm
      rcases List.mem_append.mp hm with hm' | hm'
      · rw [lastEnded_append_skip _ _ _ (hskip sid)]
        exact hec sid s hm'
      · simp at hm'
        obtain ⟨h1, h2⟩ := hm'
        subst h2
        rw [h1, lastEnded_append_skip _ _ _ (hskip sid0)]
        have hnone : lastEnded processed sid0 = none := by
          apply lastEnded_none
          intro rec hrec hcon
          apply hmem
          have : sid0 ∈ processed.filterMap truthyId :=
            List.mem_filterMap.mpr ⟨rec, hrec, hcon⟩
          have : sid0 ∈ (processed.filterMap truthyId).toFinset := by
            simpa [List.mem_toFinset] using this
          rw [← hks] at this
          simpa [List.mem_toFinset] using this
        rw [hnone]
        rfl

/-- One step of `parse_jsonl_file` preserves the invariant. -/
theorem parseInv_step (processed : List RollupRec) (r : RollupRec) (m : Sessions)
    (inv : ParseInv processed m) : ParseInv (processed ++ [r]) (parseStep m r) := by
  obtain ⟨hnd, hks, hec⟩ := inv
  rcases htid : truthyId r with _ | sid0
  · have hstep : parseStep m r = m := by
      simp [parseStep, htid]
    rw [hstep]
    refine ⟨hnd, ?_, ?_⟩
    · rw [hks, List.filterMap_append]
      have h1 : List.filterMap truthyId [r] = [] := by
        simp [List.filterMap, htid]
      rw [h1]
      simp
    · intro sid s hm
      rw [lastEnded_append_skip _ _ _ (by simp [htid])]
      exact hec sid s hm
  · by_cases hstart : r.event = some "session_started"
    · have hstep : parseStep m r = ensureSession m sid0 := by
        simp [parseStep, htid, hstart]
      rw [hstep]
      exact parseInv_ensure processed r sid0 m htid (by simp [hstart]) ⟨hnd, hks, hec⟩
    · by_cases hend : r.event = some "session_ended"
      · have hstep : parseStep m r = updateSession (ensureSession m sid0) sid0
            (fun s => { s with exit_code := some (r.exit_code.getD (-1)),
                               bytes_in := r.total_bytes_in.getD 0,
                               bytes_out := r.total_bytes_out.getD 0 }) := by
          simp [parseStep, htid, hstart, hend]
        rw [hstep]
        refine ⟨?_, ?_, ?_⟩
        · rw [keys_updateSession]
          exact nodup_keys_ensure m sid0 hnd
        · rw [keys_updateSession, keysF_ensure m sid0 hks, List.filterMap_append]
          have h1 : List.filterMap truthyId [r] = [sid0] := by
            simp [List.filterMap, htid]
          rw [h1, List.toFinset_append]
          rfl
        · intro sid s hm
          rcases mem_updateSession hm with ⟨hsid, s0, hs0, hfs⟩ | ⟨hne, hm'⟩
          · subst hsid
            subst hfs
            rw [lastEnded_append_hit _ _ _ (by simp [htid, hend])]
            rfl
          · have hcond : (truthyId r == some sid && r.event == some "session_ended") =
                false := by
              simp [htid]
              intro hcon
              exact (hne hcon.symm).elim
            rw [lastEnded_append_skip _ _ _ hcond]
            by_cases hmem : sid0 ∈ m.map Prod.fst
            · rw [ensureSession_of_mem m sid0 hmem] at hm'
              exact hec sid s hm'
            · rw [ensureSession_of_new m sid0 hmem] at hm'
              rcases List.mem_append.mp hm' with hm'' | hm''
              · exact hec sid s hm''
              · simp at hm''
                exact absurd hm''.1 hne
      · have hstep : parseStep m r = ensureSession m sid0 := by
          simp [parseStep, htid, hstart, hend]
        rw [hstep]
        exact parseInv_ensure processed r sid0 m htid
          (by simpa using hend) ⟨hnd, hks, hec⟩

/-- The analyzer invariant holds for the sessions parsed from any record
sequence. -/
theorem parse_inv (records : List RollupRec) : ParseInv records (parse_jsonl records) := by
  have main : ∀ (rest processed : List RollupRec) (m : Sessions),
      ParseInv processed m → ParseInv (processed ++ rest) (rest.foldl parseStep m) := by
    intro rest
    induction rest with
    | nil =>
        intro processed m inv
        simpa using inv
    | cons r rest ih =>
        intro processed m inv
        have h2 := ih (processed ++ [r]) (parseStep m r) (parseInv_step processed r m inv)
        simpa [List.append_assoc] using h2
  simpa using main records [] [] parseInv_nil

/-- Counting behaviour of the successful/failed fold of
`analyze_sessions`. -/
theorem analyze_foldl (l : List SessDat) : ∀ st0 : DailyStats,
    (l.foldl analyzeStep st0).total_sessions = st0.total_sessions ∧
    (l.foldl analyzeStep st0).successful_sessions + (l.foldl analyzeStep st0).failed_sessions
      = st0.successful_sessions + st0.failed_sessions + l.length ∧
    (l.foldl analyzeStep st0).successful_sessions
      = st0.successful_sessions +
          (l.filter fun s => decide (s.exit_code = some 0)).length := by
  induction l with
  | nil => intro st0; simp
  | cons s l ih =>
      intro st0
      obtain ⟨h1, h2, h3⟩ := ih (analyzeStep st0 s)
      rw [List.foldl_cons]
      by_cases hs : s.exit_code = some 0
      · refine ⟨?_, ?_, ?_⟩
        · rw [h1]
          simp [analyzeStep, hs]
        · rw [h2]
          simp [analyzeStep, hs, List.length_cons]
          omega
        · rw [h3]
          simp [analyzeStep, hs, List.filter_cons]
          omega
      · refine ⟨?_, ?_, ?_⟩
        · rw [h1]
          simp [analyzeStep, hs]
        · rw [h2]
          simp [analyzeStep, hs, List.length_cons]
          omega
        · rw [h3]
          simp [analyzeStep, hs, List.filter_cons]

/-! ## The claims -/

/-- A concrete parameter set used by the counterexamples: session id `s`,
wrapped command `codex`, working directory `/w`, no resume UUID. -/
def pEx : Params :=
  ⟨"s", ["codex"], "/w", none⟩

/-- Claim C1, counterexample: the child exits with status 3 (`childStatus =
some 3`, a normal loop run ending in a pty EOF), the `session_ended` record
carries exit code 3, yet both recorder variants' own exit status is 0, not
3 — `main()` never passes the child's status to `sys.exit`. -/
theorem c1_counterexample :
    (Env.mk true true false "tio" pEx [.ptyEOF] (some 3)).childStatus = some 3 ∧
    (mainV2 ⟨true, true, false, "tio", pEx, [.ptyEOF], some 3⟩).exitStatus = 0 ∧
    (mainV1 ⟨true, true, false, "tio", pEx, [.ptyEOF], some 3⟩).exitStatus = 0 ∧
    (mainV2 ⟨true, true, false, "tio", pEx, [.ptyEOF], some 3⟩).exitStatus ≠ 3 ∧
    (mainV1 ⟨true, true, false, "tio", pEx, [.ptyEOF], some 3⟩).exitStatus ≠ 3 := by
  exact ⟨rfl, rfl, rfl, by decide, by decide⟩

/-- Claim C1 (corrected): the recorder's own exit status never mirrors the
child's. Whatever the child's exit status, v2 exits 0 on every path through
the relay, and v1 exits 0 or — after a re-raised mid-session exception — 1:
`main()` never passes the child's status to `sys.exit`. -/
theorem c1_amended (p : Params) (evs : List Ev) (cs : Option Int) (att : Bool)
    (tio : String) :
    (mainV2 ⟨true, true, att, tio, p, evs, cs⟩).exitStatus = 0 ∧
    (mainV1 ⟨true, true, att, tio, p, evs, cs⟩).exitStatus ≤ 1 := by
  have hle : ∀ k : ExitKind, (match k with | .raised => 1 | _ => 0) ≤ 1 := by
    intro k
    cases k <;> decide
  exact ⟨rfl, hle _⟩

set_option maxRecDepth 100000 in
/-- Claim C2, counterexample: in the completed three-record session that
relays one output chunk, the claimed verification — hash record i with its
`prev_hash` field removed and compare with record i+1's `prev_hash` — fails:
`append_jsonl` hashes the line as written, which for every record after the
first includes its `prev_hash` field. -/
theorem c2_counterexample :
    adjacentAll claimedLink ((sessionV2 pEx [.ptyData "hi"] (some 0)).log) = false := by
  decide

/-- Claim C2 (corrected): in every completed session of either variant,
the `prev_hash` stored in record i+1 is the digest of record i's full
serialized line as written — including record i's own `prev_hash` field and
the trailing newline. Removing the `prev_hash` field first is only correct
for the chain's first record, which has none. -/
theorem c2_amended :
    (∀ (p : Params) (evs : List Ev) (cs : Option Int),
        List.Chain' actualLink (sessionV1 p evs cs).log) ∧
    (∀ (p : Params) (evs : List Ev) (cs : Option Int),
        List.Chain' actualLink (sessionV2 p evs cs).log) :=
  ⟨fun p evs cs => (chainOk_sessionV1 p evs cs).1,
   fun p evs cs => (chainOk_sessionV2 p evs cs).1⟩

/-- Claim C3 (confirmed): for every sequence of relayed chunks, at every
point of either variant's session — any prefix of serviced loop events, and
also after finalization — the raw transcript length equals
`total_bytes_in + total_bytes_out`, and the sums of the `bytes` fields of
the io records per direction equal the respective counters. -/
theorem c3_byte_accounting :
    (∀ (p : Params) (evs : List Ev), c3Inv (runLoop stepV1 p (initV1 p) evs)) ∧
    (∀ (p : Params) (evs : List Ev), c3Inv (runLoop stepV2 p (initV2 p) evs)) ∧
    (∀ (p : Params) (evs : List Ev) (cs : Option Int), c3Inv (sessionV1 p evs cs)) ∧
    (∀ (p : Params) (evs : List Ev) (cs : Option Int), c3Inv (sessionV2 p evs cs)) := by
  refine ⟨?_, ?_, ?_, ?_⟩
  · intro p evs
    exact runLoop_preserves c3Inv stepV1 c3Inv_stepV1 p evs _ (c3Inv_initV1 p)
  · intro p evs
    exact runLoop_preserves c3Inv stepV2 c3Inv_stepV2 p evs _ (c3Inv_initV2 p)
  · intro p evs cs
    exact c3Inv_finalizeV1 p cs _
      (runLoop_preserves c3Inv stepV1 c3Inv_stepV1 p evs _ (c3Inv_initV1 p))
  · intro p evs cs
    exact c3Inv_finalizeV2 p cs _
      (runLoop_preserves c3Inv stepV2 c3Inv_stepV2 p evs _ (c3Inv_initV2 p))

/-- Claim C4, code bug: a SIGINT delivered while the relay loop is running
terminates the loop in both variants and forwards nothing to the child: the
installed `signal_handler` turns SIGINT into `SystemExit`, which v2's bare
`except` catches with `break` and which v1 lets fall through to the
`finally`. The v2 `except KeyboardInterrupt` branch, whose own comment says
it sends Ctrl-C to the child and continues, would append the 0x03 byte and
keep the loop alive — but it is unreachable, because `sigintRaises` is
`SystemExit`, not `KeyboardInterrupt`. -/
theorem c4_sigint_terminates_loop :
    (runLoop stepV2 pEx (initV2 pEx) [.sigInt]).done = true ∧
    (runLoop stepV2 pEx (initV2 pEx) [.sigInt]).childInput = [] ∧
    (runLoop stepV1 pEx (initV1 pEx) [.sigInt]).done = true ∧
    (runLoop stepV1 pEx (initV1 pEx) [.sigInt]).childInput = [] ∧
    handleLoopExnV2 (initV2 pEx) .keyboardInterrupt =
      { initV2 pEx with childInput := ["\x03"] } ∧
    sigintRaises = .systemExit := by
  exact ⟨rfl, rfl, rfl, rfl, rfl, rfl⟩

/-- Claim C5, counterexample: child output produced after EOF on the user
input descriptor is not forwarded — EOF makes both variants break out of
the relay loop immediately (v1 after closing the pty master), contradicting
the claim that the relay keeps forwarding output until the child is gone. -/
theorem c5_counterexample :
    (runLoop stepV2 pEx (initV2 pEx) [.stdinEOF, .ptyData "hi"]).fwdOut = [] ∧
    (runLoop stepV2 pEx (initV2 pEx) [.stdinEOF, .ptyData "hi"]).bytesOut = 0 ∧
    (runLoop stepV2 pEx (initV2 pEx) [.stdinEOF, .ptyData "hi"]).done = true ∧
    (runLoop stepV1 pEx (initV1 pEx) [.stdinEOF, .ptyData "hi"]).fwdOut = [] ∧
    (runLoop stepV1 pEx (initV1 pEx) [.stdinEOF, .ptyData "hi"]).masterClosed = true := by
  exact ⟨rfl, rfl, rfl, rfl, rfl⟩

/-- Claim C5 (corrected): end-of-file on the user-input descriptor
terminates the relay loop at once in both variants (v1 closes the pty
master first); the input side is indeed never read again, but neither is
any further child output forwarded — processing stops and the session
proceeds to finalization, so events after the EOF leave the state
untouched. -/
theorem c5_amended (p : Params) (pre rest : List Ev) :
    runLoop stepV2 p (initV2 p) (pre ++ .stdinEOF :: rest) =
      runLoop stepV2 p (initV2 p) (pre ++ [.stdinEOF]) ∧
    runLoop stepV1 p (initV1 p) (pre ++ .stdinEOF :: rest) =
      runLoop stepV1 p (initV1 p) (pre ++ [.stdinEOF]) ∧
    (runLoop stepV2 p (initV2 p) (pre ++ [.stdinEOF])).done = true ∧
    (runLoop stepV1 p (initV1 p) (pre ++ [.stdinEOF])).done = true := by
  have hsplit : pre ++ Ev.stdinEOF :: rest = (pre ++ [Ev.stdinEOF]) ++ rest := by
    simp
  have h2done : (runLoop stepV2 p (initV2 p) (pre ++ [.stdinEOF])).done = true := by
    rw [runLoop_append]
    exact stepV2_stdinEOF_done p _
  have h1done : (runLoop stepV1 p (initV1 p) (pre ++ [.stdinEOF])).done = true := by
    rw [runLoop_append]
    exact stepV1_stdinEOF_done p _
  refine ⟨?_, ?_, h2done, h1done⟩
  · rw [hsplit, runLoop_append]
    exact runLoop_absorbs stepV2 stepV2_done p rest _ h2done
  · rw [hsplit, runLoop_append]
    exact runLoop_absorbs stepV1 stepV1_done p rest _ h1done

/-- Claim C6 (confirmed): on every exit path of the relay loop — any
sequence of serviced events, including interrupts, exceptions and
device-gone errors — finalization appends a `session_ended` record carrying
the extracted exit code (the blocking `waitpid` outcome; in v2 `-1` when
the loop's `WNOHANG` probe already reaped the child) and both byte totals,
and it is the last record of the structured log. -/
theorem c6_session_ended_always :
    (∀ (p : Params) (evs : List Ev) (cs : Option Int),
        ∃ r, (sessionV1 p evs cs).log.getLast? = some r ∧
          Record.getStr r "event" = some "session_ended" ∧
          Record.getInt r "exit_code" = some (ecOf cs) ∧
          Record.getInt r "total_bytes_in" =
            some ((runLoop stepV1 p (initV1 p) evs).bytesIn : Int) ∧
          Record.getInt r "total_bytes_out" =
            some ((runLoop stepV1 p (initV1 p) evs).bytesOut : Int)) ∧
    (∀ (p : Params) (evs : List Ev) (cs : Option Int),
        ∃ r, (sessionV2 p evs cs).log.getLast? = some r ∧
          Record.getStr r "event" = some "session_ended" ∧
          Record.getInt r "exit_code" =
            some (ecOfV2 (runLoop stepV2 p (initV2 p) evs).childReaped cs) ∧
          Record.getInt r "total_bytes_in" =
            some ((runLoop stepV2 p (initV2 p) evs).bytesIn : Int) ∧
          Record.getInt r "total_bytes_out" =
            some ((runLoop stepV2 p (initV2 p) evs).bytesOut : Int)) := by
  constructor
  · intro p evs cs
    refine ⟨_, finalizeV1_getLast p cs (runLoop stepV1 p (initV1 p) evs), ?_, ?_, ?_, ?_⟩
    · exact (endedV1_fields ..).1
    · exact (endedV1_fields ..).2.1
    · exact (endedV1_fields ..).2.2.1
    · exact (endedV1_fields ..).2.2.2
  · intro p evs cs
    refine ⟨_, finalizeV2_getLast p cs (runLoop stepV2 p (initV2 p) evs), ?_, ?_, ?_, ?_⟩
    · exact (endedV2_fields ..).1
    · exact (endedV2_fields ..).2.1
    · exact (endedV2_fields ..).2.2.1
    · exact (endedV2_fields ..).2.2.2

/-- Claim C7 (confirmed): when the wrapped executable is not on the search
path, both variants exit with status 127 having created no session files:
no meta file, an empty structured log and an empty raw transcript, and (for
v2) no terminal-mode change to restore. -/
theorem c7_not_found_127_no_files (fOk att : Bool) (tio : String) (p : Params)
    (evs : List Ev) (cs : Option Int) :
    mainV1 ⟨false, fOk, att, tio, p, evs, cs⟩ = ⟨127, false, [], "", none⟩ ∧
    mainV2 ⟨false, fOk, att, tio, p, evs, cs⟩ = ⟨127, false, [], "", none⟩ := by
  exact ⟨rfl, rfl⟩

/-- Claim C8 (confirmed): `append_jsonl` returns the digest of exactly the
bytes it appends — the serialized object including the `prev_hash` field it
just added (when one was threaded in) plus the trailing newline — and a
session's first record, appended with `prev_hash = None`, is written
without a `prev_hash` field. -/
theorem c8_append_jsonl_digest :
    (∀ (log : List Record) (obj : Record) (h : String),
        append_jsonl log obj (some h) =
          (log ++ [Record.set obj "prev_hash" (.str h)],
            compute_sha256 (serializeLine (Record.set obj "prev_hash" (.str h))))) ∧
    (∀ (log : List Record) (obj : Record),
        append_jsonl log obj none =
          (log ++ [obj], compute_sha256 (serializeLine obj))) ∧
    (∀ p : Params, (initV1 p).log = [startedRecV1 p (tsTag 0)] ∧
        Record.hasKey (startedRecV1 p (tsTag 0)) "prev_hash" = false) ∧
    (∀ p : Params, (initV2 p).log = [startedRecV2 p (tsTag 0)] ∧
        Record.hasKey (startedRecV2 p (tsTag 0)) "prev_hash" = false) := by
  refine ⟨fun log obj h => rfl, fun log obj => rfl, ?_, ?_⟩
  · intro p
    exact ⟨rfl, noPrevHashKey_startedRecV1 ..⟩
  · intro p
    exact ⟨rfl, noPrevHashKey_startedRecV2 ..⟩

/-- Claim C9 (confirmed): whenever stdin is an interactive terminal, v2
re-applies exactly the termios attributes captured before switching to raw
mode, on every terminating path — any event sequence (normal loop exit,
exception, signal-induced exit) and even a failed `pty.fork`. -/
theorem c9_termios_restored (p : Params) (evs : List Ev) (cs : Option Int)
    (fOk : Bool) (tio : String) :
    (mainV2 ⟨true, fOk, true, tio, p, evs, cs⟩).restoredTermios = some tio := by
  cases fOk <;> rfl

/-- Claim C10 (confirmed): after `analyze_sessions`, successful plus failed
sessions equal the total, which is the number of distinct (truthy) session
ids parsed; a session is counted successful exactly when its stored exit
code is 0, and that stored code is the one reported by the session's last
`session_ended` record — absent (hence counted failed) when the session has
no `session_ended` record. -/
theorem c10_rollup_counts (records : List RollupRec) :
    (analyze_sessions (parse_jsonl records)).successful_sessions +
        (analyze_sessions (parse_jsonl records)).failed_sessions =
      (analyze_sessions (parse_jsonl records)).total_sessions ∧
    (analyze_sessions (parse_jsonl records)).total_sessions =
      (records.filterMap truthyId).toFinset.card ∧
    (analyze_sessions (parse_jsonl records)).successful_sessions =
      ((parse_jsonl records).filter fun q => decide (q.2.exit_code = some 0)).length ∧
    (∀ sid s, (sid, s) ∈ parse_jsonl records →
        s.exit_code = (lastEnded records sid).map fun rec => rec.exit_code.getD (-1)) := by
  obtain ⟨hnd, hks, hec⟩ := parse_inv records
  obtain ⟨h1, h2, h3⟩ := analyze_foldl ((parse_jsonl records).map Prod.snd)
    ⟨(parse_jsonl records).length, 0, 0⟩
  refine ⟨?_, ?_, ?_, hec⟩
  · rw [show (analyze_sessions (parse_jsonl records)) =
      ((parse_jsonl records).map Prod.snd).foldl analyzeStep
        ⟨(parse_jsonl records).length, 0, 0⟩ from rfl]
    rw [h2, h1]
    simp
  · rw [show (analyze_sessions (parse_jsonl records)) =
      ((parse_jsonl records).map Prod.snd).foldl analyzeStep
        ⟨(parse_jsonl records).length, 0, 0⟩ from rfl]
    rw [h1]
    show (parse_jsonl records).length = _
    calc (parse_jsonl records).length
        = ((parse_jsonl records).map Prod.fst).length := by rw [List.length_map]
      _ = ((parse_jsonl records).map Prod.fst).toFinset.card :=
          (List.toFinset_card_of_nodup hnd).symm
      _ = (records.filterMap truthyId).toFinset.card := by rw [hks]
  · rw [show (analyze_sessions (parse_jsonl records)) =
      ((parse_jsonl records).map Prod.snd).foldl analyzeStep
        ⟨(parse_jsonl records).length, 0, 0⟩ from rfl]
    rw [h3, List.filter_map, List.length_map]
    show 0 + (List.filter ((fun s => decide (s.exit_code = some 0)) ∘ Prod.snd)
        (parse_jsonl records)).length =
      (List.filter (fun q => decide (q.2.exit_code = some 0)) (parse_jsonl records)).length
    rw [Nat.zero_add]
    rfl

/-- A concrete record list for the C10 witness: session `a` starts and ends
with exit code 0; session `b` has io traffic but no `session_ended`. -/
def exRecs : List RollupRec :=
  [⟨some "a", some "session_started", none, none, none, none⟩,
   ⟨some "a", some "session_ended", none, some 0, some 5, some 7⟩,
   ⟨some "b", none, some "in", none, none, none⟩]

/-- Witness for C10: applying the theorem at `exRecs` and discharging the
membership hypothesis of its last conjunct at session `a`. -/
theorem c10_rollup_counts_witness :
    (⟨some 0, 5, 7⟩ : SessDat).exit_code =
      (lastEnded exRecs "a").map (fun rec => rec.exit_code.getD (-1)) ∧
    (analyze_sessions (parse_jsonl exRecs)).successful_sessions +
        (analyze_sessions (parse_jsonl exRecs)).failed_sessions =
      (analyze_sessions (parse_jsonl exRecs)).total_sessions := by
  exact ⟨(c10_rollup_counts exRecs).2.2.2 "a" ⟨some 0, 5, 7⟩ (by decide),
    (c10_rollup_counts exRecs).1⟩

end Cx


